import Mathlib

/-!
Verification of the Equipment Tracker CRUD service and its React client.

The backend controller (`validatePayload`, `parseId`, `getAllEquipment`,
`createEquipment`, `updateEquipment`, `deleteEquipment`) is embedded as pure
Lean functions over an explicit SQLite-table model `Store`.  The client
filter/sort pipeline (`displayedEquipment` in `App.tsx`) and the client form
validation (`validate` in `EquipmentForm.tsx`) are embedded as pure functions
as well.  Store failures (the `catch` → 500 paths) are outside the model: every
modelled database call succeeds, which is the setting all of the claims below
speak about.
-/

namespace EquipmentTracker

/-- One row of the `equipment` table: `id, name, type, status, lastCleanedDate`. -/
structure Equipment where
  id : Nat
  name : String
  type : String
  status : String
  lastCleanedDate : String
deriving DecidableEq, Repr

/-- The payload type `Omit<Equipment, 'id'>` produced by successful validation. -/
structure EquipmentPayload where
  name : String
  type : String
  status : String
  lastCleanedDate : String
deriving DecidableEq, Repr

/-- An inbound JSON object body.  Each field is `some s` when the field is
present with a string value; `none` covers both an absent field and a
non-string JSON value, which the source treats identically (every check is
`typeof x !== 'string' || ...`). -/
structure RequestBody where
  name : Option String
  type : Option String
  status : Option String
  lastCleanedDate : Option String
deriving DecidableEq, Repr

/-- The HTTP responses the controller can produce.  `json` carries a single
record (201 created / 200 updated), `jsonList` the full listing, `errorMsg`
an error body `{ message }`, and `noContent` the bodyless 204. -/
inductive Response where
  | json (status : Nat) (record : Equipment)
  | jsonList (status : Nat) (records : List Equipment)
  | errorMsg (status : Nat) (message : String)
  | noContent (status : Nat)
deriving DecidableEq, Repr

/-- The `equipment` table plus the SQLite AUTOINCREMENT counter: `nextId` is
the id the next INSERT will be assigned (`sqlite_sequence + 1`). -/
structure Store where
  rows : List Equipment
  nextId : Nat
deriving DecidableEq, Repr

/-- The freshly created database: empty table, AUTOINCREMENT starting at 1. -/
def emptyStore : Store := ⟨[], 1⟩

/-- `TYPE_OPTIONS` from the controller. -/
def TYPE_OPTIONS : List String := ["Machine", "Vessel", "Tank", "Mixer"]

/-- `STATUS_OPTIONS` from the controller. -/
def STATUS_OPTIONS : List String := ["Active", "Inactive", "Under Maintenance"]

/-- JavaScript `\d` in the controller's `ISO_DATE_REGEX`: the ASCII digits. -/
def wsChar (c : Char) : Bool := c.isWhitespace

/-- Drop leading whitespace, then trailing whitespace, from a character list:
the character-level content of JS `String.prototype.trim`. -/
def trimChars (l : List Char) : List Char :=
  ((l.dropWhile wsChar).reverse.dropWhile wsChar).reverse

/-- JS `String.prototype.trim` (whitespace at both ends removed). -/
def jsTrim (s : String) : String := String.mk (trimChars s.data)

/-- `ISO_DATE_REGEX.test`: the string matches `^\d{4}-\d{2}-\d{2}$` — exactly
ten characters, digits in positions 0-3, 5-6 and 8-9 and `-` at 4 and 7. -/
def isoDateRegexTest (s : String) : Bool :=
  match s.data with
  | [a, b, c, d, e, f, g, k, i, j] =>
      a.isDigit && b.isDigit && c.isDigit && d.isDigit && e == '-' &&
      f.isDigit && g.isDigit && k == '-' && i.isDigit && j.isDigit
  | _ => false

/-- Digit run to its decimal value. -/
def digitsToNat (cs : List Char) : Nat :=
  cs.foldl (fun a c => a * 10 + (c.toNat - '0'.toNat)) 0

/-- JS `Number(value)` restricted to the integer question `parseId` asks:
`some n` when the string evaluates to the integer `n`
(`Number.isInteger` true), `none` when it evaluates to `NaN` or to a
non-integer.  JS trims whitespace, maps the empty string to `0`, and accepts
an optional sign followed by a decimal literal; a literal with a nonzero
fractional part is a non-integer.  Exponent, hexadecimal and `Infinity`
forms — none of which can denote a positive integer id in the routes the
claims exercise — are modelled as `none`, and values are kept exact rather
than rounded to binary floating point. -/
def jsNumberInt (value : String) : Option Int :=
  let t := trimChars value.data
  if t.isEmpty then some 0 else
  let signAndRest : Int × List Char :=
    match t with
    | '+' :: cs => (1, cs)
    | '-' :: cs => (-1, cs)
    | cs => (1, cs)
  let sign := signAndRest.1
  match signAndRest.2.span Char.isDigit with
  | (intPart, []) =>
      if intPart.isEmpty then none else some (sign * digitsToNat intPart)
  | (intPart, '.' :: fracPart) =>
      if fracPart.all Char.isDigit && !(intPart.isEmpty && fracPart.isEmpty) then
        if fracPart.all (fun c => c == '0') then some (sign * digitsToNat intPart)
        else none
      else none
  | _ => none

/-- `parseId` from the controller: `Number(value)` must be an integer and
strictly positive, else `null`. -/
def parseId (value : String) : Option Nat :=
  match jsNumberInt value with
  | some n => if n > 0 then some n.toNat else none
  | none => none

/-- `validatePayload` from the controller: field checks in source order
(`name`, `type`, `status`, `lastCleanedDate`), each returning its
field-specific message; on success the data is the trimmed `name`, the
`type` and `status` as given, and the trimmed date.  The `none` body models
a non-object request body (`isRecord` false). -/
def validatePayload (body : Option RequestBody) :
    Except String EquipmentPayload :=
  match body with
  | none => .error "Invalid request body."
  | some b =>
    match b.name with
    | none => .error "Name is required and must be at least 2 characters."
    | some name =>
      if (jsTrim name).length < 2 then
        .error "Name is required and must be at least 2 characters."
      else match b.type with
      | none => .error "Type is required and must be a valid option."
      | some ty =>
        if ty ∉ TYPE_OPTIONS then
          .error "Type is required and must be a valid option."
        else match b.status with
        | none => .error "Status is required and must be a valid option."
        | some st =>
          if st ∉ STATUS_OPTIONS then
            .error "Status is required and must be a valid option."
          else match b.lastCleanedDate with
          | none => .error "Last cleaned date is required."
          | some lastCleanedDate =>
            if (jsTrim lastCleanedDate).length = 0 then
              .error "Last cleaned date is required."
            else if !isoDateRegexTest (jsTrim lastCleanedDate) then
              .error "Last cleaned date must be in YYYY-MM-DD format."
            else
              .ok ⟨jsTrim name, ty, st, jsTrim lastCleanedDate⟩

/-- `SELECT ... WHERE id = ?` (`dbGet`): the first row with the given id. -/
def findRow (s : Store) (i : Nat) : Option Equipment :=
  s.rows.find? (fun r => r.id = i)

/-- Insertion step of a sort of the table by ascending id (`ORDER BY id ASC`). -/
def insertById (r : Equipment) : List Equipment → List Equipment
  | [] => [r]
  | x :: xs => if r.id ≤ x.id then r :: x :: xs else x :: insertById r xs

/-- Sort the table by ascending id (`ORDER BY id ASC`). -/
def sortById : List Equipment → List Equipment
  | [] => []
  | x :: xs => insertById x (sortById xs)

/-- The record list the GET handler serialises. -/
def listEquipment (s : Store) : List Equipment := sortById s.rows

/-- `getAllEquipment`: 200 with all rows ordered by ascending id. -/
def getAllEquipment (s : Store) : Response :=
  .jsonList 200 (listEquipment s)

/-- `createEquipment`: validate, INSERT (AUTOINCREMENT assigns `nextId`),
re-SELECT by `lastID`, 201 with the created row (500 if the re-select
finds nothing, which cannot happen after the insert). -/
def createEquipment (s : Store) (body : Option RequestBody) :
    Response × Store :=
  match validatePayload body with
  | .error m => (.errorMsg 400 m, s)
  | .ok p =>
    let newRow : Equipment := ⟨s.nextId, p.name, p.type, p.status, p.lastCleanedDate⟩
    let s' : Store := ⟨s.rows ++ [newRow], s.nextId + 1⟩
    match findRow s' s.nextId with
    | some created => (.json 201 created, s')
    | none => (.errorMsg 500 "Failed to create equipment.", s')

/-- `updateEquipment`: parse the id (400), validate (400), SELECT the row
(404), UPDATE all four data fields of every row matching the id, re-SELECT,
200 with the updated row. -/
def updateEquipment (s : Store) (idStr : String) (body : Option RequestBody) :
    Response × Store :=
  match parseId idStr with
  | none => (.errorMsg 400 "Invalid equipment id.", s)
  | some i =>
    match validatePayload body with
    | .error m => (.errorMsg 400 m, s)
    | .ok p =>
      match findRow s i with
      | none => (.errorMsg 404 "Equipment not found.", s)
      | some _ =>
        let s' : Store :=
          ⟨s.rows.map (fun r =>
            if r.id = i then ⟨i, p.name, p.type, p.status, p.lastCleanedDate⟩ else r),
           s.nextId⟩
        match findRow s' i with
        | some updated => (.json 200 updated, s')
        | none => (.errorMsg 500 "Failed to update equipment.", s')

/-- `deleteEquipment`: parse the id (400), DELETE the matching rows, 404 when
`changes = 0`, otherwise 204 with no body. -/
def deleteEquipment (s : Store) (idStr : String) : Response × Store :=
  match parseId idStr with
  | none => (.errorMsg 400 "Invalid equipment id.", s)
  | some i =>
    let remaining := s.rows.filter (fun r => r.id ≠ i)
    let changes := s.rows.length - remaining.length
    let s' : Store := ⟨remaining, s.nextId⟩
    if changes = 0 then (.errorMsg 404 "Equipment not found.", s')
    else (.noContent 204, s')

/-! Client pipeline, from `App.tsx`. -/

/-- The `SortOption` union type of `App.tsx`. -/
inductive SortOption where
  | nameAsc
  | nameDesc
  | dateNewest
  | dateOldest
deriving DecidableEq, Repr

/-- JS `String.prototype.toLowerCase`, modelled with `Char.toLower`
(the ASCII case mapping, which covers every enum value and the claims'
concrete names). -/
def jsToLower (s : String) : String := String.mk (s.data.map Char.toLower)

/-- Whether `pat` occurs at the start of `hay`. -/
def startsWithChars : List Char → List Char → Bool
  | [], _ => true
  | _ :: _, [] => false
  | a :: as, b :: bs => a == b && startsWithChars as bs

/-- Whether `pat` occurs contiguously anywhere in `hay`: JS
`String.prototype.includes` at the character level. -/
def containsChars (hay pat : List Char) : Bool :=
  match hay with
  | [] => pat.isEmpty
  | _ :: t => startsWithChars pat hay || containsChars t pat

/-- JS `a.includes(b)`. -/
def jsIncludes (a b : String) : Bool := containsChars a.data b.data

/-- Three-way lexicographic comparison of character lists by code point:
the sign-level behaviour of JS string comparison, which compares code
units one by one. -/
def cmpChars : List Char → List Char → Int
  | [], [] => 0
  | [], _ :: _ => -1
  | _ :: _, [] => 1
  | a :: as, b :: bs =>
      if a.toNat < b.toNat then -1
      else if b.toNat < a.toNat then 1
      else cmpChars as bs

/-- `a.localeCompare(b, undefined, { sensitivity: 'base' })`, modelled as
case-insensitive lexicographic comparison (the ASCII fragment of the
base-sensitivity collation). -/
def localeCompareCI (a b : String) : Int :=
  cmpChars (jsToLower a).data (jsToLower b).data

/-- `a.localeCompare(b)` with default options, modelled as lexicographic
string comparison — the spec itself relies only on its lexicographic
behaviour on fixed-width ISO dates. -/
def localeCompareStr (a b : String) : Int := cmpChars a.data b.data

/-- The comparator passed to `.sort` in `displayedEquipment`, by `sortOption`. -/
def sortComparator (opt : SortOption) (a b : Equipment) : Int :=
  match opt with
  | .nameAsc => localeCompareCI a.name b.name
  | .nameDesc => localeCompareCI b.name a.name
  | .dateNewest => localeCompareStr b.lastCleanedDate a.lastCleanedDate
  | .dateOldest => localeCompareStr a.lastCleanedDate b.lastCleanedDate

/-- The order the comparator induces: `a` may come before `b`. -/
def leOpt (opt : SortOption) (a b : Equipment) : Prop :=
  sortComparator opt a b ≤ 0

instance (opt : SortOption) : DecidableRel (leOpt opt) :=
  fun a b => inferInstanceAs (Decidable (sortComparator opt a b ≤ 0))

/-- The search/filter predicate of `displayedEquipment`: the trimmed,
lowercased query is empty or occurs in the lowercased name, and the status
filter is `All` or equals the record's status. -/
def matchesFilters (searchQuery statusFilter : String) (item : Equipment) : Bool :=
  let normalizedQuery := jsToLower (jsTrim searchQuery)
  (normalizedQuery.length == 0 || jsIncludes (jsToLower item.name) normalizedQuery) &&
  (statusFilter == "All" || item.status == statusFilter)

/-- `displayedEquipment` from `App.tsx`: filter by search query and status
filter, then sort a copy by the selected comparator. -/
def displayedEquipment (equipment : List Equipment) (searchQuery : String)
    (statusFilter : String) (sortOption : SortOption) : List Equipment :=
  List.insertionSort (leOpt sortOption)
    (equipment.filter (matchesFilters searchQuery statusFilter))

/-! Client form, from `EquipmentForm.tsx`. -/

/-- The form state `EquipmentFormData` (`Omit<Equipment, 'id'>`). -/
structure EquipmentFormData where
  name : String
  type : String
  status : String
  lastCleanedDate : String
deriving DecidableEq, Repr

/-- The per-field error record `validate` builds. -/
structure FormErrors where
  name : Option String
  type : Option String
  status : Option String
  lastCleanedDate : Option String
deriving DecidableEq, Repr

/-- `validate` from `EquipmentForm.tsx`: name empty / too short after trim,
type and status membership in the same option arrays as the backend, and a
non-empty date after trim.  No other check is performed on the date. -/
def formValidate (data : EquipmentFormData) : FormErrors :=
  { name :=
      if (jsTrim data.name).length = 0 then some "Name is required."
      else if (jsTrim data.name).length < 2 then
        some "Name must be at least 2 characters."
      else none
    type :=
      if data.type ∉ TYPE_OPTIONS then some "Type is required." else none
    status :=
      if data.status ∉ STATUS_OPTIONS then some "Status is required." else none
    lastCleanedDate :=
      if (jsTrim data.lastCleanedDate).length = 0 then
        some "Last cleaned date is required."
      else none }

/-- The five field-specific messages `validatePayload` can attach to a 400. -/
def payloadFieldMessages : List String :=
  ["Name is required and must be at least 2 characters.",
   "Type is required and must be a valid option.",
   "Status is required and must be a valid option.",
   "Last cleaned date is required.",
   "Last cleaned date must be in YYYY-MM-DD format."]

/-- The invalid-payload condition quantified over in claim C2, with the date
pattern applied to the trimmed date string, which is what the backend tests. -/
def invalidPayloadCondition (b : RequestBody) : Prop :=
  (b.name = none ∨ ∃ n, b.name = some n ∧ (jsTrim n).length < 2) ∨
  (b.type = none ∨ ∃ t, b.type = some t ∧ t ∉ TYPE_OPTIONS) ∨
  (b.status = none ∨ ∃ st, b.status = some st ∧ st ∉ STATUS_OPTIONS) ∨
  (b.lastCleanedDate = none ∨
    ∃ d, b.lastCleanedDate = some d ∧ isoDateRegexTest (jsTrim d) = false)

/-- The string neither starts nor ends with a whitespace character. -/
def noEdgeWhitespace (s : String) : Prop :=
  s.data.head?.all (fun c => !c.isWhitespace) = true ∧
  s.data.getLast?.all (fun c => !c.isWhitespace) = true

/-- The row shape claim C10 asserts for every persisted record. -/
def validRow (r : Equipment) : Prop :=
  noEdgeWhitespace r.name ∧ 2 ≤ r.name.length ∧
  r.type ∈ TYPE_OPTIONS ∧ r.status ∈ STATUS_OPTIONS ∧
  noEdgeWhitespace r.lastCleanedDate ∧
  isoDateRegexTest r.lastCleanedDate = true

/-- Stores reachable from the fresh database through the API operations. -/
inductive Reachable : Store → Prop where
  | empty : Reachable emptyStore
  | create (s : Store) (body : Option RequestBody) :
      Reachable s → Reachable (createEquipment s body).2
  | update (s : Store) (idStr : String) (body : Option RequestBody) :
      Reachable s → Reachable (updateEquipment s idStr body).2
  | delete (s : Store) (idStr : String) :
      Reachable s → Reachable (deleteEquipment s idStr).2

/-- `Object.keys(errors).length > 0`: some field has an error. -/
def formHasErrors (e : FormErrors) : Bool :=
  e.name.isSome || e.type.isSome || e.status.isSome || e.lastCleanedDate.isSome

/-- `handleSubmit` refuses to call `onSubmit` exactly when `validate` reports
any error (and the submit button is likewise disabled via `isValid`). -/
def formSubmitBlocked (data : EquipmentFormData) : Bool :=
  formHasErrors (formValidate data)

/-! Helper lemmas. -/

lemma dropWhile_head?_false {p : Char → Bool} :
    ∀ (l : List Char) {c : Char}, (l.dropWhile p).head? = some c → p c = false := by
  intro l
  induction l with
  | nil => intro c h; simp [List.dropWhile] at h
  | cons a t ih =>
      intro c h
      by_cases hpa : p a = true
      · rw [List.dropWhile_cons_of_pos hpa] at h
        exact ih h
      · rw [List.dropWhile_cons_of_neg hpa] at h
        simp at h
        subst h
        simpa using hpa

lemma dropWhile_getLast?_of_ne_nil {p : Char → Bool} :
    ∀ (l : List Char), l.dropWhile p ≠ [] →
      (l.dropWhile p).getLast? = l.getLast? := by
  intro l
  induction l with
  | nil => intro h; simp [List.dropWhile] at h
  | cons a t ih =>
      intro h
      by_cases hpa : p a = true
      · rw [List.dropWhile_cons_of_pos hpa] at h ⊢
        rw [ih h]
        have ht : t ≠ [] := by
          intro he
          subst he
          simp [List.dropWhile] at h
        cases t with
        | nil => exact absurd rfl ht
        | cons b bs => simp [List.getLast?_cons_cons]
      · rw [List.dropWhile_cons_of_neg hpa]

lemma trimChars_noEdge (l : List Char) :
    (trimChars l).head?.all (fun c => !c.isWhitespace) = true ∧
    (trimChars l).getLast?.all (fun c => !c.isWhitespace) = true := by
  unfold trimChars
  set m := l.dropWhile wsChar with hm
  set r := m.reverse.dropWhile wsChar with hr
  constructor
  · rw [List.head?_reverse]
    by_cases hrnil : r = []
    · simp [hrnil]
    · rw [dropWhile_getLast?_of_ne_nil m.reverse (by rw [← hr]; exact hrnil)]
      rw [List.getLast?_reverse]
      cases hc : m.head? with
      | none => simp
      | some c =>
          have := dropWhile_head?_false (p := wsChar) l (c := c) (by rw [← hm]; exact hc)
          simp [Option.all]
          simpa [wsChar] using this
  · rw [List.getLast?_reverse]
    cases hc : r.head? with
    | none => simp
    | some c =>
        have := dropWhile_head?_false (p := wsChar) m.reverse (c := c) (by rw [← hr]; exact hc)
        simp [Option.all]
        simpa [wsChar] using this

lemma jsTrim_noEdge (s : String) : noEdgeWhitespace (jsTrim s) := by
  have h := trimChars_noEdge s.data
  exact ⟨h.1, h.2⟩

lemma isoDateRegexTest_length {s : String} (h : isoDateRegexTest s = true) :
    s.length = 10 := by
  cases s with
  | mk l =>
      unfold isoDateRegexTest at h
      split at h
      · rename_i a b c d e f g k i j hl
        have hl2 : l = [a, b, c, d, e, f, g, k, i, j] := hl
        rw [String.length_mk, hl2]
        rfl
      · exact absurd h (by simp)

lemma validatePayload_ok_inv {b : RequestBody} {p : EquipmentPayload}
    (h : validatePayload (some b) = .ok p) :
    ∃ n t st d, b.name = some n ∧ b.type = some t ∧ b.status = some st ∧
      b.lastCleanedDate = some d ∧
      2 ≤ (jsTrim n).length ∧ t ∈ TYPE_OPTIONS ∧ st ∈ STATUS_OPTIONS ∧
      isoDateRegexTest (jsTrim d) = true ∧
      p = ⟨jsTrim n, t, st, jsTrim d⟩ := by
  simp only [validatePayload] at h
  split at h
  · exact absurd h (by simp)
  next nm hn =>
    split at h
    · exact absurd h (by simp)
    next h1 =>
      split at h
      · exact absurd h (by simp)
      next ty ht =>
        split at h
        · exact absurd h (by simp)
        next h2 =>
          split at h
          · exact absurd h (by simp)
          next st hs =>
            split at h
            · exact absurd h (by simp)
            next h3 =>
              split at h
              · exact absurd h (by simp)
              next d hd =>
                split at h
                · exact absurd h (by simp)
                next h4 =>
                  split at h
                  · exact absurd h (by simp)
                  next h5 =>
                    refine ⟨nm, ty, st, d, hn, ht, hs, hd, by omega,
                      by simpa using h2, by simpa using h3, by simpa using h5, ?_⟩
                    cases h
                    rfl

lemma validatePayload_ok_of {n t st d : String}
    (hn : 2 ≤ (jsTrim n).length) (ht : t ∈ TYPE_OPTIONS) (hst : st ∈ STATUS_OPTIONS)
    (hd : isoDateRegexTest (jsTrim d) = true) :
    validatePayload (some ⟨some n, some t, some st, some d⟩) =
      .ok ⟨jsTrim n, t, st, jsTrim d⟩ := by
  have hlen := isoDateRegexTest_length hd
  simp only [validatePayload]
  rw [if_neg (by omega)]
  rw [if_neg (by simpa using ht)]
  rw [if_neg (by simpa using hst)]
  rw [if_neg (by omega)]
  rw [if_neg (by simp [hd])]

lemma validatePayload_error_mem {b : RequestBody} {m : String}
    (h : validatePayload (some b) = .error m) : m ∈ payloadFieldMessages := by
  simp only [validatePayload] at h
  split at h
  · cases h; simp [payloadFieldMessages]
  next nm hn =>
    split at h
    · cases h; simp [payloadFieldMessages]
    next h1 =>
      split at h
      · cases h; simp [payloadFieldMessages]
      next ty ht =>
        split at h
        · cases h; simp [payloadFieldMessages]
        next h2 =>
          split at h
          · cases h; simp [payloadFieldMessages]
          next st hs =>
            split at h
            · cases h; simp [payloadFieldMessages]
            next h3 =>
              split at h
              · cases h; simp [payloadFieldMessages]
              next d hd =>
                split at h
                · cases h; simp [payloadFieldMessages]
                next h4 =>
                  split at h
                  · cases h; simp [payloadFieldMessages]
                  next h5 => exact absurd h (by simp)

lemma validatePayload_error_of_invalid {b : RequestBody}
    (h : invalidPayloadCondition b) :
    ∃ m, validatePayload (some b) = .error m := by
  cases hv : validatePayload (some b) with
  | error m => exact ⟨m, rfl⟩
  | ok p =>
      exfalso
      obtain ⟨n, t, st, d, hn, ht, hst, hd, hlen, htm, hsm, hreg, _⟩ :=
        validatePayload_ok_inv hv
      rcases h with h | h | h | h
      · rcases h with h | ⟨n', hn', hl⟩
        · rw [h] at hn; cases hn
        · rw [hn'] at hn; cases hn; omega
      · rcases h with h | ⟨t', ht', hl⟩
        · rw [h] at ht; cases ht
        · rw [ht'] at ht; cases ht; exact hl htm
      · rcases h with h | ⟨st', hst', hl⟩
        · rw [h] at hst; cases hst
        · rw [hst'] at hst; cases hst; exact hl hsm
      · rcases h with h | ⟨d', hd', hl⟩
        · rw [h] at hd; cases hd
        · rw [hd'] at hd; cases hd; rw [hreg] at hl; cases hl

lemma findRow_eq_none_iff {s : Store} {i : Nat} :
    findRow s i = none ↔ ∀ r ∈ s.rows, r.id ≠ i := by
  simp [findRow, List.find?_eq_none]

lemma findRow_mem {s : Store} {i : Nat} {r : Equipment}
    (h : findRow s i = some r) : r ∈ s.rows ∧ r.id = i := by
  refine ⟨List.mem_of_find?_eq_some h, ?_⟩
  have := List.find?_some h
  simpa using this

lemma find?_append_new {i : Nat} {new : Equipment} (hnew : new.id = i) :
    ∀ (l : List Equipment), (∀ r ∈ l, r.id ≠ i) →
      (l ++ [new]).find? (fun r => r.id = i) = some new := by
  intro l
  induction l with
  | nil =>
      intro _
      simp [List.find?, hnew]
  | cons a t ih =>
      intro hall
      have ha : a.id ≠ i := hall a (by simp)
      have : (a :: t ++ [new]).find? (fun r => r.id = i) =
          (t ++ [new]).find? (fun r => r.id = i) := by
        simp [List.find?, ha]
      rw [this, ih (fun r hr => hall r (by simp [hr]))]

lemma find?_map_update {i : Nat} {upd : Equipment} (hupd : upd.id = i)
    (f : Equipment → Equipment)
    (hf : ∀ r, f r = if r.id = i then upd else r) :
    ∀ (l : List Equipment) (e : Equipment),
      l.find? (fun r => r.id = i) = some e →
      (l.map f).find? (fun r => r.id = i) = some upd := by
  intro l
  induction l with
  | nil => intro e h; simp [List.find?] at h
  | cons a t ih =>
      intro e h
      by_cases ha : a.id = i
      · have hfa : f a = upd := by rw [hf a, if_pos ha]
        simp [List.find?, hfa, hupd]
      · have hfa : f a = a := by rw [hf a, if_neg ha]
        rw [List.find?_cons_of_neg _ (by simpa using ha)] at h
        have := ih e h
        simp only [List.map_cons, hfa]
        rw [List.find?_cons_of_neg _ (by simpa using ha)]
        exact this

lemma mem_map_update_iff {i : Nat} {upd : Equipment} (hupd : upd.id = i)
    (f : Equipment → Equipment)
    (hf : ∀ r, f r = if r.id = i then upd else r)
    (l : List Equipment) (r : Equipment) (hr : r.id ≠ i) :
    r ∈ l.map f ↔ r ∈ l := by
  constructor
  · intro h
    obtain ⟨q, hq, hfq⟩ := List.mem_map.mp h
    rw [hf q] at hfq
    by_cases hqid : q.id = i
    · rw [if_pos hqid] at hfq
      exact absurd (hfq ▸ hupd) hr
    · rw [if_neg hqid] at hfq
      exact hfq ▸ hq
  · intro h
    have hfr : f r = r := by rw [hf r, if_neg hr]
    exact List.mem_map.mpr ⟨r, h, hfr⟩

lemma mem_insertById {r x : Equipment} :
    ∀ (l : List Equipment), r ∈ insertById x l ↔ r = x ∨ r ∈ l := by
  intro l
  induction l with
  | nil => simp [insertById]
  | cons a t ih =>
      unfold insertById
      by_cases h : x.id ≤ a.id
      · rw [if_pos h]
        simp
      · rw [if_neg h]
        simp [ih]
        tauto

lemma mem_sortById {r : Equipment} :
    ∀ (l : List Equipment), r ∈ sortById l ↔ r ∈ l := by
  intro l
  induction l with
  | nil => simp [sortById]
  | cons a t ih =>
      unfold sortById
      rw [mem_insertById, ih]
      simp

lemma filter_length_lt {α : Type} {p : α → Bool} {x : α} :
    ∀ {l : List α}, x ∈ l → p x = false → (l.filter p).length < l.length := by
  intro l
  induction l with
  | nil => intro h; simp at h
  | cons a t ih =>
      intro hx hpx
      rcases List.mem_cons.mp hx with rfl | hxt
      · rw [List.filter_cons_of_neg (by simp [hpx])]
        have := List.length_filter_le p t
        simp
        omega
      · cases hpa : p a
        · rw [List.filter_cons_of_neg (by simp [hpa])]
          have := List.length_filter_le p t
          simp
          omega
        · rw [List.filter_cons_of_pos hpa]
          have := ih hxt hpx
          simp
          omega

lemma cmpChars_swap : ∀ (a b : List Char), cmpChars a b = -cmpChars b a := by
  intro a
  induction a with
  | nil =>
      intro b
      cases b with
      | nil => simp [cmpChars]
      | cons y ys => simp [cmpChars]
  | cons x xs ih =>
      intro b
      cases b with
      | nil => simp [cmpChars]
      | cons y ys =>
          unfold cmpChars
          rcases Nat.lt_trichotomy x.toNat y.toNat with hlt | heq | hgt
          · rw [if_pos hlt, if_neg (by omega), if_pos hlt]
          · rw [if_neg (by omega), if_neg (by omega), if_neg (by omega),
              if_neg (by omega)]
            exact ih ys
          · rw [if_neg (by omega), if_pos hgt, if_pos hgt]
            decide

lemma cmpChars_trans_le :
    ∀ (a b c : List Char), cmpChars a b ≤ 0 → cmpChars b c ≤ 0 →
      cmpChars a c ≤ 0 := by
  intro a
  induction a with
  | nil =>
      intro b c _ _
      cases c with
      | nil => simp [cmpChars]
      | cons z zs => simp [cmpChars]
  | cons x xs ih =>
      intro b c h1 h2
      cases b with
      | nil => simp [cmpChars] at h1
      | cons y ys =>
          cases c with
          | nil => simp [cmpChars] at h2
          | cons z zs =>
              unfold cmpChars at h1 h2 ⊢
              rcases Nat.lt_trichotomy x.toNat y.toNat with hxy | hxy | hxy
              · rcases Nat.lt_trichotomy y.toNat z.toNat with hyz | hyz | hyz
                · rw [if_pos (by omega)]; omega
                · rw [if_pos (by omega)]; omega
                · rw [if_neg (by omega), if_pos hyz] at h2; omega
              · rcases Nat.lt_trichotomy y.toNat z.toNat with hyz | hyz | hyz
                · rw [if_pos (by omega)]; omega
                · rw [if_neg (by omega), if_neg (by omega)]
                  rw [if_neg (by omega), if_neg (by omega)] at h1
                  rw [if_neg (by omega), if_neg (by omega)] at h2
                  exact ih ys zs h1 h2
                · rw [if_neg (by omega), if_pos hyz] at h2; omega
              · rw [if_neg (by omega), if_pos hxy] at h1; omega

lemma cmpChars_total (a b : List Char) :
    cmpChars a b ≤ 0 ∨ cmpChars b a ≤ 0 := by
  have h := cmpChars_swap a b
  omega

instance (opt : SortOption) : IsTotal Equipment (leOpt opt) := by
  constructor
  intro a b
  cases opt <;>
    simp only [leOpt, sortComparator, localeCompareCI, localeCompareStr] <;>
    exact cmpChars_total _ _

instance (opt : SortOption) : IsTrans Equipment (leOpt opt) := by
  constructor
  intro a b c h1 h2
  cases opt <;>
    simp only [leOpt, sortComparator, localeCompareCI, localeCompareStr] at h1 h2 ⊢
  · exact cmpChars_trans_le _ _ _ h1 h2
  · exact cmpChars_trans_le _ _ _ h2 h1
  · exact cmpChars_trans_le _ _ _ h2 h1
  · exact cmpChars_trans_le _ _ _ h1 h2

/-! Claim theorems. -/

/-- C9: in `updateEquipment` the id check precedes validation and validation
precedes the existence check: an unparseable id yields 400 whatever the
payload, and a parseable id with an invalid payload yields 400 with the
validation message even when no row with that id exists (the store is not
consulted); the store is unchanged in both cases. -/
theorem update_error_precedence (s : Store) (idStr : String)
    (body : Option RequestBody) :
    (parseId idStr = none →
      updateEquipment s idStr body = (.errorMsg 400 "Invalid equipment id.", s)) ∧
    (∀ i m, parseId idStr = some i → validatePayload body = .error m →
      updateEquipment s idStr body = (.errorMsg 400 m, s)) := by
  constructor
  · intro h
    simp [updateEquipment, h]
  · intro i m hi hm
    simp [updateEquipment, hi, hm]

/-- Witness for C9: an unparseable id is rejected 400 regardless of a valid
payload, and a short name is rejected 400 on an empty store where id 3 does
not exist. -/
theorem update_error_precedence_witness :
    updateEquipment ⟨[], 5⟩ "abc"
        (some ⟨some "Pump", some "Machine", some "Active", some "2024-01-15"⟩) =
      (.errorMsg 400 "Invalid equipment id.", ⟨[], 5⟩) ∧
    updateEquipment ⟨[], 5⟩ "3"
        (some ⟨some "P", some "Machine", some "Active", some "2024-01-15"⟩) =
      (.errorMsg 400 "Name is required and must be at least 2 characters.",
       ⟨[], 5⟩) :=
  ⟨(update_error_precedence ⟨[], 5⟩ "abc"
      (some ⟨some "Pump", some "Machine", some "Active", some "2024-01-15"⟩)).1
      (by decide),
   (update_error_precedence ⟨[], 5⟩ "3"
      (some ⟨some "P", some "Machine", some "Active", some "2024-01-15"⟩)).2
      3 "Name is required and must be at least 2 characters."
      (by decide) rfl⟩

/-- C4: delete responds 400 on an unparseable id; when the id parses but no
row carries it, delete responds 404 not-found (never success) and leaves the
store unchanged; when a row carries it, delete responds 204 with no body and
removes exactly that row (rows with other ids survive, no row appears). -/
theorem delete_semantics (s : Store) (idStr : String) :
    (parseId idStr = none →
      deleteEquipment s idStr = (.errorMsg 400 "Invalid equipment id.", s)) ∧
    (∀ i, parseId idStr = some i →
      ((∀ r ∈ s.rows, r.id ≠ i) →
        deleteEquipment s idStr = (.errorMsg 404 "Equipment not found.", s)) ∧
      (∀ r ∈ s.rows, r.id = i →
        (deleteEquipment s idStr).1 = .noContent 204 ∧
        r ∉ (deleteEquipment s idStr).2.rows ∧
        (∀ q ∈ s.rows, q.id ≠ i → q ∈ (deleteEquipment s idStr).2.rows) ∧
        (∀ q ∈ (deleteEquipment s idStr).2.rows, q ∈ s.rows))) := by
  obtain ⟨rows, nid⟩ := s
  constructor
  · intro h
    simp [deleteEquipment, h]
  · intro i hi
    constructor
    · intro hall
      have hfil : rows.filter (fun r => r.id ≠ i) = rows :=
        List.filter_eq_self.mpr (fun r hr => by simpa using hall r hr)
      simp only [deleteEquipment, hi]
      rw [hfil, Nat.sub_self, if_pos rfl]
    · intro r hr hid
      have hlt : (rows.filter (fun r => r.id ≠ i)).length < rows.length :=
        filter_length_lt hr (by simp [hid])
      have hch : ¬(rows.length - (rows.filter (fun r => r.id ≠ i)).length = 0) := by
        omega
      have hdel : deleteEquipment ⟨rows, nid⟩ idStr =
          (.noContent 204, ⟨rows.filter (fun r => r.id ≠ i), nid⟩) := by
        simp only [deleteEquipment, hi]
        rw [if_neg hch]
      refine ⟨by rw [hdel], ?_, ?_, ?_⟩
      · intro hmem
        rw [hdel] at hmem
        rcases (List.mem_filter.mp hmem) with ⟨_, hne⟩
        simp at hne
        exact hne hid
      · intro q hq hqne
        rw [hdel]
        exact List.mem_filter.mpr ⟨hq, by simpa using hqne⟩
      · intro q hq
        rw [hdel] at hq
        exact (List.mem_filter.mp hq).1

/-- Witness for C4: on a one-row store, deleting id 1 gives 204 and empties
the table; deleting id 9 gives 404 and changes nothing; an unparseable id
gives 400. -/
theorem delete_semantics_witness :
    deleteEquipment ⟨[⟨1, "Tank 1", "Tank", "Active", "2024-01-15"⟩], 2⟩ "x" =
      (.errorMsg 400 "Invalid equipment id.",
       ⟨[⟨1, "Tank 1", "Tank", "Active", "2024-01-15"⟩], 2⟩) ∧
    deleteEquipment ⟨[⟨1, "Tank 1", "Tank", "Active", "2024-01-15"⟩], 2⟩ "9" =
      (.errorMsg 404 "Equipment not found.",
       ⟨[⟨1, "Tank 1", "Tank", "Active", "2024-01-15"⟩], 2⟩) ∧
    (deleteEquipment ⟨[⟨1, "Tank 1", "Tank", "Active", "2024-01-15"⟩], 2⟩ "1").1 =
      .noContent 204 ∧
    (⟨1, "Tank 1", "Tank", "Active", "2024-01-15"⟩ : Equipment) ∉
      (deleteEquipment ⟨[⟨1, "Tank 1", "Tank", "Active", "2024-01-15"⟩], 2⟩ "1").2.rows :=
  ⟨(delete_semantics ⟨[⟨1, "Tank 1", "Tank", "Active", "2024-01-15"⟩], 2⟩ "x").1
      (by decide),
   ((delete_semantics ⟨[⟨1, "Tank 1", "Tank", "Active", "2024-01-15"⟩], 2⟩ "9").2
      9 (by decide)).1 (by decide),
   (((delete_semantics ⟨[⟨1, "Tank 1", "Tank", "Active", "2024-01-15"⟩], 2⟩ "1").2
      1 (by decide)).2 ⟨1, "Tank 1", "Tank", "Active", "2024-01-15"⟩
      (by simp) rfl).1,
   (((delete_semantics ⟨[⟨1, "Tank 1", "Tank", "Active", "2024-01-15"⟩], 2⟩ "1").2
      1 (by decide)).2 ⟨1, "Tank 1", "Tank", "Active", "2024-01-15"⟩
      (by simp) rfl).2.1⟩

/-- C2 as literally stated fails: this body's `lastCleanedDate` does not match
`^\d{4}-\d{2}-\d{2}$` (the raw value ` 2024-01-15 ` has surrounding spaces),
yet create inserts a row and responds 201 rather than 400, because the
backend applies the pattern to the trimmed date. -/
theorem create_accepts_untrimmed_date :
    isoDateRegexTest " 2024-01-15 " = false ∧
    createEquipment emptyStore
        (some ⟨some "Pump", some "Machine", some "Active", some " 2024-01-15 "⟩) =
      (.json 201 ⟨1, "Pump", "Machine", "Active", "2024-01-15"⟩,
       ⟨[⟨1, "Pump", "Machine", "Active", "2024-01-15"⟩], 2⟩) := by
  constructor
  · decide
  · rfl

/-- C2 (amended: the date pattern is applied to the trimmed date string): for
every object body with a missing/short name, a type or status outside its
enumeration, or a missing date or one whose trimmed value fails the pattern,
create and update respond 400 with a field-specific message (update may
instead report its invalid-id message) and the store is unchanged. -/
theorem invalid_payload_rejected (s : Store) (idStr : String) (b : RequestBody)
    (h : invalidPayloadCondition b) :
    (∃ m ∈ payloadFieldMessages,
      createEquipment s (some b) = (.errorMsg 400 m, s)) ∧
    (∃ m, (m ∈ payloadFieldMessages ∨ m = "Invalid equipment id.") ∧
      updateEquipment s idStr (some b) = (.errorMsg 400 m, s)) := by
  obtain ⟨m, hm⟩ := validatePayload_error_of_invalid h
  have hmem := validatePayload_error_mem hm
  constructor
  · exact ⟨m, hmem, by simp [createEquipment, hm]⟩
  · cases hpi : parseId idStr with
    | none =>
        exact ⟨"Invalid equipment id.", Or.inr rfl, by simp [updateEquipment, hpi]⟩
    | some i =>
        exact ⟨m, Or.inl hmem, by simp [updateEquipment, hpi, hm]⟩

/-- Witness for C2: a body whose type is not in the enumeration is rejected
400 by create and update on a concrete store. -/
theorem invalid_payload_rejected_witness :
    (∃ m ∈ payloadFieldMessages,
      createEquipment ⟨[], 1⟩
          (some ⟨some "Pump", some "Robot", some "Active", some "2024-01-15"⟩) =
        (.errorMsg 400 m, ⟨[], 1⟩)) ∧
    (∃ m, (m ∈ payloadFieldMessages ∨ m = "Invalid equipment id.") ∧
      updateEquipment ⟨[], 1⟩ "1"
          (some ⟨some "Pump", some "Robot", some "Active", some "2024-01-15"⟩) =
        (.errorMsg 400 m, ⟨[], 1⟩)) :=
  invalid_payload_rejected ⟨[], 1⟩ "1"
    ⟨some "Pump", some "Robot", some "Active", some "2024-01-15"⟩
    (Or.inr (Or.inl (Or.inr ⟨"Robot", rfl, by decide⟩)))

/-- C5: with the other fields valid, backend date validation accepts exactly
the trimmed-pattern matches: when the trimmed date fails the pattern both
create and update respond 400 and leave the store unchanged, and when it
matches, validation succeeds and create responds 201 — regardless of whether
the date is a possible calendar day. -/
theorem date_validation_exact (s : Store) (idStr : String) (n t st d : String)
    (hn : 2 ≤ (jsTrim n).length) (ht : t ∈ TYPE_OPTIONS)
    (hst : st ∈ STATUS_OPTIONS) :
    (isoDateRegexTest (jsTrim d) = false →
      (∃ m, createEquipment s (some ⟨some n, some t, some st, some d⟩) =
        (.errorMsg 400 m, s)) ∧
      (∃ m, updateEquipment s idStr (some ⟨some n, some t, some st, some d⟩) =
        (.errorMsg 400 m, s))) ∧
    (isoDateRegexTest (jsTrim d) = true →
      validatePayload (some ⟨some n, some t, some st, some d⟩) =
        .ok ⟨jsTrim n, t, st, jsTrim d⟩ ∧
      ∃ rec s', createEquipment s (some ⟨some n, some t, some st, some d⟩) =
        (.json 201 rec, s')) := by
  constructor
  · intro hbad
    obtain ⟨m, hm⟩ := validatePayload_error_of_invalid
      (b := ⟨some n, some t, some st, some d⟩)
      (Or.inr (Or.inr (Or.inr (Or.inr ⟨d, rfl, hbad⟩))))
    constructor
    · exact ⟨m, by simp [createEquipment, hm]⟩
    · cases hpi : parseId idStr with
      | none => exact ⟨"Invalid equipment id.", by simp [updateEquipment, hpi]⟩
      | some i => exact ⟨m, by simp [updateEquipment, hpi, hm]⟩
  · intro hgood
    have hok := validatePayload_ok_of hn ht hst hgood
    refine ⟨hok, ?_⟩
    obtain ⟨rows, nid⟩ := s
    simp only [createEquipment, hok]
    cases hf : findRow ⟨rows ++ [⟨nid, jsTrim n, t, st, jsTrim d⟩], nid + 1⟩ nid with
    | some e =>
        exact ⟨e, ⟨rows ++ [⟨nid, jsTrim n, t, st, jsTrim d⟩], nid + 1⟩, rfl⟩
    | none =>
        rw [findRow_eq_none_iff] at hf
        exact absurd rfl (hf ⟨nid, jsTrim n, t, st, jsTrim d⟩ (by simp))

/-- Witness for C5: the semantically impossible `2024-02-30` matches the
pattern and is accepted — validation succeeds and create responds 201 —
while `30-02-2024` fails the pattern and is rejected 400 by both routes. -/
theorem date_validation_exact_witness :
    (validatePayload
        (some ⟨some "Pump", some "Machine", some "Active", some "2024-02-30"⟩) =
      .ok ⟨"Pump", "Machine", "Active", "2024-02-30"⟩ ∧
    ∃ rec s', createEquipment ⟨[], 1⟩
        (some ⟨some "Pump", some "Machine", some "Active", some "2024-02-30"⟩) =
      (.json 201 rec, s')) ∧
    (∃ m, createEquipment ⟨[], 1⟩
        (some ⟨some "Pump", some "Machine", some "Active", some "30-02-2024"⟩) =
      (.errorMsg 400 m, ⟨[], 1⟩)) :=
  ⟨(date_validation_exact ⟨[], 1⟩ "1" "Pump" "Machine" "Active" "2024-02-30"
      (by decide) (by decide) (by decide)).2 (by decide),
   ((date_validation_exact ⟨[], 1⟩ "1" "Pump" "Machine" "Active" "30-02-2024"
      (by decide) (by decide) (by decide)).1 (by decide)).1⟩

/-- C1 as stated fails: this payload is accepted by backend validation, but
its name has surrounding whitespace, and the record create returns (and a
subsequent read lists) carries the trimmed name, which differs from the
submitted payload's name. -/
theorem create_trims_submitted_name :
    (∃ p, validatePayload
        (some ⟨some " Tank 1 ", some "Tank", some "Active", some "2024-01-15"⟩) =
      .ok p) ∧
    createEquipment emptyStore
        (some ⟨some " Tank 1 ", some "Tank", some "Active", some "2024-01-15"⟩) =
      (.json 201 ⟨1, "Tank 1", "Tank", "Active", "2024-01-15"⟩,
       ⟨[⟨1, "Tank 1", "Tank", "Active", "2024-01-15"⟩], 2⟩) ∧
    ("Tank 1" : String) ≠ " Tank 1 " :=
  ⟨⟨⟨"Tank 1", "Tank", "Active", "2024-01-15"⟩, rfl⟩, rfl, by decide⟩

/-- C1 (amended: the record equals the validated payload — name and date
trimmed of surrounding whitespace, type and status as submitted): for every
accepted payload, create responds 201 with a record carrying the validated
payload's four fields plus the server-assigned id, and reading the list
afterwards returns that record.  The freshness hypothesis is SQLite's
AUTOINCREMENT primary-key guarantee. -/
theorem create_then_read (s : Store) (body : Option RequestBody)
    (p : EquipmentPayload) (hp : validatePayload body = .ok p)
    (hfresh : ∀ r ∈ s.rows, r.id ≠ s.nextId) :
    ∃ s', createEquipment s body =
        (.json 201 ⟨s.nextId, p.name, p.type, p.status, p.lastCleanedDate⟩, s') ∧
      (⟨s.nextId, p.name, p.type, p.status, p.lastCleanedDate⟩ : Equipment) ∈
        listEquipment s' := by
  obtain ⟨rows, nid⟩ := s
  simp only [createEquipment, hp]
  have hfind : findRow
      ⟨rows ++ [⟨nid, p.name, p.type, p.status, p.lastCleanedDate⟩], nid + 1⟩ nid =
      some ⟨nid, p.name, p.type, p.status, p.lastCleanedDate⟩ :=
    @find?_append_new nid ⟨nid, p.name, p.type, p.status, p.lastCleanedDate⟩ rfl
      rows (by simpa using hfresh)
  rw [hfind]
  refine ⟨_, rfl, ?_⟩
  rw [listEquipment, mem_sortById]
  simp

/-- Witness for C1: creating `Tank 1` on the empty store responds 201 with
the record under id 1 and the list read contains it. -/
theorem create_then_read_witness :
    ∃ s', createEquipment emptyStore
        (some ⟨some "Tank 1", some "Tank", some "Active", some "2024-01-15"⟩) =
      (.json 201 ⟨1, "Tank 1", "Tank", "Active", "2024-01-15"⟩, s') ∧
      (⟨1, "Tank 1", "Tank", "Active", "2024-01-15"⟩ : Equipment) ∈
        listEquipment s' :=
  create_then_read emptyStore
    (some ⟨some "Tank 1", some "Tank", some "Active", some "2024-01-15"⟩)
    ⟨"Tank 1", "Tank", "Active", "2024-01-15"⟩ rfl
    (by intro r hr; simp [emptyStore] at hr)

/-- C3: for a parseable id and a payload passing validation, update on a
store containing a row with that id overwrites all four data fields with the
validated payload's values, preserves the id, and responds 200 with the
updated record; on a store with no such row it responds 404 not-found and
changes nothing. -/
theorem update_semantics (s : Store) (idStr : String) (body : Option RequestBody)
    (i : Nat) (p : EquipmentPayload) (hi : parseId idStr = some i)
    (hp : validatePayload body = .ok p) :
    ((∀ r ∈ s.rows, r.id ≠ i) →
      updateEquipment s idStr body = (.errorMsg 404 "Equipment not found.", s)) ∧
    (∀ e ∈ s.rows, e.id = i →
      ∃ s', updateEquipment s idStr body =
          (.json 200 ⟨i, p.name, p.type, p.status, p.lastCleanedDate⟩, s') ∧
        findRow s' i = some ⟨i, p.name, p.type, p.status, p.lastCleanedDate⟩ ∧
        s'.nextId = s.nextId) := by
  obtain ⟨rows, nid⟩ := s
  constructor
  · intro hall
    have hnone : findRow ⟨rows, nid⟩ i = none :=
      findRow_eq_none_iff.mpr (by simpa using hall)
    simp [updateEquipment, hi, hp, hnone]
  · intro e he hid
    cases hf : findRow ⟨rows, nid⟩ i with
    | none =>
        rw [findRow_eq_none_iff] at hf
        exact absurd hid (hf e he)
    | some e0 =>
        have hf' : rows.find? (fun r => r.id = i) = some e0 := hf
        have hmap : (rows.map (fun r =>
            if r.id = i then ⟨i, p.name, p.type, p.status, p.lastCleanedDate⟩
            else r)).find? (fun r => r.id = i) =
            some ⟨i, p.name, p.type, p.status, p.lastCleanedDate⟩ :=
          @find?_map_update i ⟨i, p.name, p.type, p.status, p.lastCleanedDate⟩
            rfl _ (fun r => rfl) rows e0 hf'
        have hmap2 : findRow ⟨rows.map (fun r =>
            if r.id = i then ⟨i, p.name, p.type, p.status, p.lastCleanedDate⟩
            else r), nid⟩ i =
            some ⟨i, p.name, p.type, p.status, p.lastCleanedDate⟩ := hmap
        refine ⟨⟨rows.map (fun r =>
            if r.id = i then ⟨i, p.name, p.type, p.status, p.lastCleanedDate⟩
            else r), nid⟩, ?_, hmap2, rfl⟩
        simp only [updateEquipment, hi, hp, hf]
        rw [hmap2]

/-- Witness for C3: updating id 1 on a one-row store overwrites the row and
responds 200; updating it on a store holding only id 2 responds 404. -/
theorem update_semantics_witness :
    (∃ s', updateEquipment ⟨[⟨1, "Tank 1", "Tank", "Active", "2024-01-15"⟩], 2⟩ "1"
        (some ⟨some "Pump", some "Machine", some "Inactive", some "2024-02-02"⟩) =
      (.json 200 ⟨1, "Pump", "Machine", "Inactive", "2024-02-02"⟩, s') ∧
      findRow s' 1 = some ⟨1, "Pump", "Machine", "Inactive", "2024-02-02"⟩ ∧
      s'.nextId = 2) ∧
    updateEquipment ⟨[⟨2, "Tank 2", "Tank", "Active", "2024-01-15"⟩], 3⟩ "1"
        (some ⟨some "Pump", some "Machine", some "Inactive", some "2024-02-02"⟩) =
      (.errorMsg 404 "Equipment not found.",
       ⟨[⟨2, "Tank 2", "Tank", "Active", "2024-01-15"⟩], 3⟩) := by
  constructor
  · have h := (update_semantics
      ⟨[⟨1, "Tank 1", "Tank", "Active", "2024-01-15"⟩], 2⟩ "1"
      (some ⟨some "Pump", some "Machine", some "Inactive", some "2024-02-02"⟩)
      1 ⟨"Pump", "Machine", "Inactive", "2024-02-02"⟩ (by decide) rfl).2
      ⟨1, "Tank 1", "Tank", "Active", "2024-01-15"⟩ (by simp) rfl
    obtain ⟨s', h1, h2, h3⟩ := h
    exact ⟨s', h1, h2, h3⟩
  · exact (update_semantics
      ⟨[⟨2, "Tank 2", "Tank", "Active", "2024-01-15"⟩], 3⟩ "1"
      (some ⟨some "Pump", some "Machine", some "Inactive", some "2024-02-02"⟩)
      1 ⟨"Pump", "Machine", "Inactive", "2024-02-02"⟩ (by decide) rfl).1
      (by intro r hr; simp at hr; subst hr; decide)

/-- C7: every successful mutation touches exactly one row — after a 201
create, a 200 update, or a 204 delete, every row whose id differs from the
created, updated, or deleted id is in the resulting table exactly when it was
in the original one, unchanged. -/
theorem single_row_effect (s : Store) :
    (∀ body rec s', createEquipment s body = (.json 201 rec, s') →
      ∀ r : Equipment, r.id ≠ rec.id → (r ∈ s'.rows ↔ r ∈ s.rows)) ∧
    (∀ idStr body rec s', updateEquipment s idStr body = (.json 200 rec, s') →
      ∀ r : Equipment, r.id ≠ rec.id → (r ∈ s'.rows ↔ r ∈ s.rows)) ∧
    (∀ idStr i s', parseId idStr = some i →
      deleteEquipment s idStr = (.noContent 204, s') →
      ∀ r : Equipment, r.id ≠ i → (r ∈ s'.rows ↔ r ∈ s.rows)) := by
  obtain ⟨rows, nid⟩ := s
  refine ⟨?_, ?_, ?_⟩
  · intro body rec s' heq r hr
    cases hv : validatePayload body with
    | error m => simp [createEquipment, hv] at heq
    | ok p =>
        simp only [createEquipment, hv] at heq
        cases hf : findRow ⟨rows ++ [⟨nid, p.name, p.type, p.status,
            p.lastCleanedDate⟩], nid + 1⟩ nid with
        | none => rw [hf] at heq; simp at heq
        | some created =>
            rw [hf] at heq
            simp only [Prod.mk.injEq, Response.json.injEq] at heq
            obtain ⟨⟨_, hrec⟩, hs'⟩ := heq
            subst hrec
            subst hs'
            have hcid : created.id = nid := by
              simpa using (findRow_mem hf).2
            show r ∈ rows ++ [⟨nid, p.name, p.type, p.status,
              p.lastCleanedDate⟩] ↔ r ∈ rows
            simp only [List.mem_append, List.mem_singleton]
            constructor
            · rintro (h | h)
              · exact h
              · exfalso
                apply hr
                rw [h, hcid]
            · exact fun h => Or.inl h
  · intro idStr body rec s' heq r hr
    cases hpi : parseId idStr with
    | none => simp [updateEquipment, hpi] at heq
    | some i =>
        cases hv : validatePayload body with
        | error m => simp [updateEquipment, hpi, hv] at heq
        | ok p =>
            cases hf : findRow ⟨rows, nid⟩ i with
            | none => simp [updateEquipment, hpi, hv, hf] at heq
            | some e0 =>
                simp only [updateEquipment, hpi, hv, hf] at heq
                cases hf2 : findRow ⟨rows.map (fun q =>
                    if q.id = i then ⟨i, p.name, p.type, p.status,
                      p.lastCleanedDate⟩ else q), nid⟩ i with
                | none => rw [hf2] at heq; simp at heq
                | some upd =>
                    rw [hf2] at heq
                    simp only [Prod.mk.injEq, Response.json.injEq] at heq
                    obtain ⟨⟨_, hrec⟩, hs'⟩ := heq
                    subst hrec
                    subst hs'
                    have huid : upd.id = i := by
                      simpa using (findRow_mem hf2).2
                    show r ∈ rows.map (fun q =>
                      if q.id = i then ⟨i, p.name, p.type, p.status,
                        p.lastCleanedDate⟩ else q) ↔ r ∈ rows
                    exact @mem_map_update_iff i
                      ⟨i, p.name, p.type, p.status, p.lastCleanedDate⟩ rfl _
                      (fun q => rfl) rows r (by rw [huid] at hr; exact hr)
  · intro idStr i s' hpi heq r hr
    simp only [deleteEquipment, hpi] at heq
    by_cases hch : rows.length - (rows.filter (fun q => q.id ≠ i)).length = 0
    · rw [if_pos hch] at heq
      simp at heq
    · rw [if_neg hch] at heq
      simp only [Prod.mk.injEq] at heq
      obtain ⟨_, hs'⟩ := heq
      subst hs'
      show r ∈ rows.filter (fun q => q.id ≠ i) ↔ r ∈ rows
      constructor
      · intro h
        exact (List.mem_filter.mp h).1
      · intro h
        exact List.mem_filter.mpr ⟨h, by simpa using hr⟩

/-- Witness for C7: after updating row 1 in a two-row store, row 2 is still
present; after deleting row 1, row 2 is still present. -/
theorem single_row_effect_witness :
    ((⟨2, "Mixer B", "Mixer", "Inactive", "2024-02-02"⟩ : Equipment) ∈
      (updateEquipment
        ⟨[⟨1, "Tank 1", "Tank", "Active", "2024-01-15"⟩,
          ⟨2, "Mixer B", "Mixer", "Inactive", "2024-02-02"⟩], 3⟩ "1"
        (some ⟨some "Pump", some "Machine", some "Active", some "2024-03-03"⟩)).2.rows) ∧
    ((⟨2, "Mixer B", "Mixer", "Inactive", "2024-02-02"⟩ : Equipment) ∈
      (deleteEquipment
        ⟨[⟨1, "Tank 1", "Tank", "Active", "2024-01-15"⟩,
          ⟨2, "Mixer B", "Mixer", "Inactive", "2024-02-02"⟩], 3⟩ "1").2.rows) := by
  constructor
  · exact ((single_row_effect
      ⟨[⟨1, "Tank 1", "Tank", "Active", "2024-01-15"⟩,
        ⟨2, "Mixer B", "Mixer", "Inactive", "2024-02-02"⟩], 3⟩).2.1 "1"
      (some ⟨some "Pump", some "Machine", some "Active", some "2024-03-03"⟩)
      ⟨1, "Pump", "Machine", "Active", "2024-03-03"⟩ _ rfl
      ⟨2, "Mixer B", "Mixer", "Inactive", "2024-02-02"⟩ (by decide)).mpr
      (by simp)
  · exact ((single_row_effect
      ⟨[⟨1, "Tank 1", "Tank", "Active", "2024-01-15"⟩,
        ⟨2, "Mixer B", "Mixer", "Inactive", "2024-02-02"⟩], 3⟩).2.2 "1" 1 _
      (by decide) rfl
      ⟨2, "Mixer B", "Mixer", "Inactive", "2024-02-02"⟩ (by decide)).mpr
      (by simp)

/-- Rows written by a successfully validated payload satisfy the invariant. -/
lemma validRow_of_ok {body : Option RequestBody} {p : EquipmentPayload}
    (hv : validatePayload body = .ok p) (i : Nat) :
    validRow ⟨i, p.name, p.type, p.status, p.lastCleanedDate⟩ := by
  cases body with
  | none => simp [validatePayload] at hv
  | some b =>
      obtain ⟨n, t, st, d, _, _, _, _, hlen, htm, hsm, hreg, hpv⟩ :=
        validatePayload_ok_inv hv
      subst hpv
      refine ⟨jsTrim_noEdge n, hlen, htm, hsm, jsTrim_noEdge d, hreg⟩

/-- C10: every record of any store reachable from the empty store through the
API operations satisfies the written-row shape: the name carries no leading
or trailing whitespace and has length at least 2, the type and status belong
to their enumerations, and the date carries no surrounding whitespace and
matches `^\d{4}-\d{2}-\d{2}$`. -/
theorem reachable_rows_valid {s : Store} (h : Reachable s) :
    ∀ r ∈ s.rows, validRow r := by
  induction h with
  | empty => intro r hr; simp [emptyStore] at hr
  | create s0 body _ ih =>
      intro r hr
      cases hv : validatePayload body with
      | error m =>
          simp only [createEquipment, hv] at hr
          exact ih r hr
      | ok p =>
          simp only [createEquipment, hv] at hr
          cases hf : findRow ⟨s0.rows ++ [⟨s0.nextId, p.name, p.type, p.status,
              p.lastCleanedDate⟩], s0.nextId + 1⟩ s0.nextId with
          | some c =>
              rw [hf] at hr
              simp only [List.mem_append, List.mem_singleton] at hr
              rcases hr with hr | hr
              · exact ih r hr
              · rw [hr]; exact validRow_of_ok hv s0.nextId
          | none =>
              rw [hf] at hr
              simp only [List.mem_append, List.mem_singleton] at hr
              rcases hr with hr | hr
              · exact ih r hr
              · rw [hr]; exact validRow_of_ok hv s0.nextId
  | update s0 idStr body _ ih =>
      intro r hr
      cases hpi : parseId idStr with
      | none =>
          simp only [updateEquipment, hpi] at hr
          exact ih r hr
      | some i =>
          cases hv : validatePayload body with
          | error m =>
              simp only [updateEquipment, hpi, hv] at hr
              exact ih r hr
          | ok p =>
              cases hf : findRow s0 i with
              | none =>
                  simp only [updateEquipment, hpi, hv, hf] at hr
                  exact ih r hr
              | some e0 =>
                  simp only [updateEquipment, hpi, hv, hf] at hr
                  have hmem : r ∈ s0.rows.map (fun q =>
                      if q.id = i then ⟨i, p.name, p.type, p.status,
                        p.lastCleanedDate⟩ else q) := by
                    cases hf2 : findRow ⟨s0.rows.map (fun q =>
                        if q.id = i then ⟨i, p.name, p.type, p.status,
                          p.lastCleanedDate⟩ else q), s0.nextId⟩ i with
                    | some upd => rw [hf2] at hr; exact hr
                    | none => rw [hf2] at hr; exact hr
                  obtain ⟨q, hq, hfq⟩ := List.mem_map.mp hmem
                  by_cases hqi : q.id = i
                  · rw [if_pos hqi] at hfq
                    rw [← hfq]
                    exact validRow_of_ok hv i
                  · rw [if_neg hqi] at hfq
                    rw [← hfq]
                    exact ih q hq
  | delete s0 idStr _ ih =>
      intro r hr
      cases hpi : parseId idStr with
      | none =>
          simp only [deleteEquipment, hpi] at hr
          exact ih r hr
      | some i =>
          simp only [deleteEquipment, hpi] at hr
          by_cases hch : s0.rows.length -
              (s0.rows.filter (fun q => q.id ≠ i)).length = 0
          · rw [if_pos hch] at hr
            exact ih r (List.mem_filter.mp hr).1
          · rw [if_neg hch] at hr
            exact ih r (List.mem_filter.mp hr).1

/-- Witness for C10: after creating ` Tank 1 ` (padded) on the empty store,
the single persisted row satisfies the invariant — in particular it carries
the trimmed name `Tank 1`. -/
theorem reachable_rows_valid_witness :
    validRow ⟨1, "Tank 1", "Tank", "Active", "2024-01-15"⟩ :=
  reachable_rows_valid
    (Reachable.create emptyStore
      (some ⟨some " Tank 1 ", some "Tank", some "Active", some "2024-01-15"⟩)
      Reachable.empty)
    ⟨1, "Tank 1", "Tank", "Active", "2024-01-15"⟩ (by decide)

lemma jsToLower_length (s : String) : (jsToLower s).length = s.length := by
  cases s with
  | mk l => simp [jsToLower]

lemma length_eq_zero_iff {s : String} : s.length = 0 ↔ s = "" := by
  cases s with
  | mk l =>
      rw [String.length_mk]
      constructor
      · intro h
        rw [List.length_eq_zero.mp h]
      · intro h
        have hdata : l = [] := by simpa using congrArg String.data h
        simp [hdata]

/-- C6: the client pipeline keeps exactly the records whose lowercased name
contains the lowercased trimmed query (every record when the trimmed query is
empty) and whose status equals the filter unless it is `All`; the output is a
permutation of that filtered set and is sorted by the chosen comparator
(case-insensitive name order, or plain string order on the dates); and the
query `pump` over `Pump A` and `Mixer B` keeps exactly `Pump A`. -/
theorem displayed_pipeline (records : List Equipment) (q f : String)
    (opt : SortOption) :
    (∀ r, r ∈ displayedEquipment records q f opt ↔
      (r ∈ records ∧
        (jsTrim q = "" ∨
          jsIncludes (jsToLower r.name) (jsToLower (jsTrim q)) = true) ∧
        (f = "All" ∨ r.status = f))) ∧
    (displayedEquipment records q f opt).Perm
      (records.filter (matchesFilters q f)) ∧
    List.Sorted (leOpt opt) (displayedEquipment records q f opt) ∧
    displayedEquipment
      [⟨1, "Pump A", "Machine", "Active", "2024-01-15"⟩,
       ⟨2, "Mixer B", "Mixer", "Inactive", "2024-02-02"⟩] "pump" "All" opt =
      [⟨1, "Pump A", "Machine", "Active", "2024-01-15"⟩] := by
  refine ⟨?_, ?_, ?_, ?_⟩
  · intro r
    unfold displayedEquipment
    rw [List.mem_insertionSort, List.mem_filter]
    unfold matchesFilters
    simp only [Bool.and_eq_true, Bool.or_eq_true, beq_iff_eq]
    rw [jsToLower_length, length_eq_zero_iff]
  · exact List.perm_insertionSort (leOpt opt) _
  · exact List.sorted_insertionSort (leOpt opt) _
  · cases opt <;> rfl

/-- C8 at the failing inputs: the client form validation reports no error for
a far-future `lastCleanedDate` and none for an impossible calendar date, so
submission is not blocked in either case — the future-date and invalid-date
checks the README documents are absent from `validate`. -/
theorem form_accepts_future_date :
    formSubmitBlocked ⟨"Pump A", "Machine", "Active", "2999-12-31"⟩ = false ∧
    (formValidate ⟨"Pump A", "Machine", "Active", "2999-12-31"⟩).lastCleanedDate
      = none ∧
    formSubmitBlocked ⟨"Pump A", "Machine", "Active", "2024-02-30"⟩ = false := by
  refine ⟨by decide, by decide, by decide⟩

end EquipmentTracker
